import Mathlib

/-!
Shallow embedding of `src/sudoku.rs` (a halo2 Sudoku circuit) and proofs
about it.

The source file defines a `SudokuChip` with
* `configure`, which registers two selectors (`always_enabled`,
  `only_first_enabled`), 9 advice columns, 9 instance columns (equality
  enabled on all of them) and five gates ("test gate", "range check",
  "rows", "columns", "3x3 squares"), each gate being a list of polynomial
  constraints over the table; and
* `assign`, which enables `only_first_enabled` at row 0 and
  `always_enabled` at rows 0..8, then for every grid position
  `(row, col)` with `row, col < 9` either copies the instance cell
  `(instance[row], col)` into the advice cell `(advice[row], col)` (when
  `solution[row][col] == 0`) or assigns `solution[row][col]` to the
  advice cell directly (when it is nonzero).

Field elements are modelled by an arbitrary commutative ring / field `F`
(the source is generic over `F: FieldExt`); concrete evaluations use
`ZMod 11`, a field in which 1..9 are distinct nonzero residues, as the
pasta field used by the tests is.  Advice columns are modelled by their
creation index 0..8, instance columns likewise, and `Rotation(j)` (always
nonnegative in this source) by a natural offset added to the current row.
Rust `Vec` indexing, which panics out of bounds, is modelled by
`Option`-returning lookups, so a panic of `assign` is `none`.
-/

namespace SudokuH2

/-- The two selectors created by `configure`
(`let [always_enabled, only_first_enabled] = [0; 2].map(|_| meta.selector())`). -/
inductive Selec where
  | always : Selec
  | onlyFirst : Selec
deriving DecidableEq, Repr

/-- Polynomial expressions, as built by the gate closures in `configure`:
constants (`Expression::Constant(F::from(_))`), selector queries
(`meta.query_selector`), advice queries (`meta.query_advice(advice[i], Rotation(j))`,
stored as column index `i` and nonnegative offset `j`), and ring operations. -/
inductive Expr (F : Type) where
  | const : F → Expr F
  | sel : Selec → Expr F
  | adv : ℕ → ℕ → Expr F
  | add : Expr F → Expr F → Expr F
  | sub : Expr F → Expr F → Expr F
  | mul : Expr F → Expr F → Expr F

/-- Evaluate an expression against a table of advice values `tbl` (column,
absolute row), selector values `sv`, at current row `row`.  A rotation reads
`row + j`, as in halo2. -/
def Expr.eval {F : Type} [CommRing F] (tbl : ℕ → ℕ → F) (sv : Selec → ℕ → F)
    (row : ℕ) : Expr F → F
  | .const c => c
  | .sel s => sv s row
  | .adv i j => tbl i (row + j)
  | .add a b => Expr.eval tbl sv row a + Expr.eval tbl sv row b
  | .sub a b => Expr.eval tbl sv row a - Expr.eval tbl sv row b
  | .mul a b => Expr.eval tbl sv row a * Expr.eval tbl sv row b

/-- A gate as registered by `meta.create_gate(name, ...)`: its name and the
list of constraint polynomials the closure pushes. -/
structure Gate (F : Type) where
  gname : String
  polys : List (Expr F)

/-- The `"test gate"`:
`only_first_enabled * (Constant(5) - advice[0]@cur)` and
`only_first_enabled * (Constant(7) - advice[0]@next)`. -/
def testGate (F : Type) [CommRing F] : Gate F :=
  { gname := "test gate"
    polys :=
      [ Expr.mul (Expr.sel Selec.onlyFirst)
          (Expr.sub (Expr.const (5 : F)) (Expr.adv 0 0)),
        Expr.mul (Expr.sel Selec.onlyFirst)
          (Expr.sub (Expr.const (7 : F)) (Expr.adv 0 1)) ] }

/-- The closure `range_check(range, value)` of the `"range check"` gate:
`(1..range).fold(Constant(1), |expr, k| expr * (Constant(k) - value))`. -/
def rangeCheckExpr (F : Type) [CommRing F] (range : ℕ) (value : Expr F) : Expr F :=
  (List.range' 1 (range - 1)).foldl
    (fun expr (k : ℕ) => Expr.mul expr (Expr.sub (Expr.const (k : F)) value))
    (Expr.const (1 : F))

/-- The `"range check"` gate: for `i` and `j` in `0..9`, pushes
`only_first_enabled * range_check(10, advice[i]@Rotation(j))`. -/
def rangeCheckGate (F : Type) [CommRing F] : Gate F :=
  { gname := "range check"
    polys :=
      (List.range 9).flatMap fun i =>
        (List.range 9).map fun j =>
          Expr.mul (Expr.sel Selec.onlyFirst) (rangeCheckExpr F 10 (Expr.adv i j)) }

/-- The `"rows"` gate: `always_enabled * (product - 362880)` and
`always_enabled * (sum - 45)`, where product and sum fold over the 9 advice
columns at `Rotation::cur()`. -/
def rowsGate (F : Type) [CommRing F] : Gate F :=
  { gname := "rows"
    polys :=
      [ Expr.mul (Expr.sel Selec.always)
          (Expr.sub
            ((List.range 9).foldl (fun expr i => Expr.mul expr (Expr.adv i 0))
              (Expr.const (1 : F)))
            (Expr.const (362880 : F))),
        Expr.mul (Expr.sel Selec.always)
          (Expr.sub
            ((List.range 9).foldl (fun expr i => Expr.add expr (Expr.adv i 0))
              (Expr.const (0 : F)))
            (Expr.const (45 : F))) ] }

/-- The `"columns"` gate: for each advice column `i` in `0..9`, pushes
`only_first_enabled * (product - 362880)` and `only_first_enabled * (sum - 45)`,
where product and sum fold over `Rotation(j)` for `j` in `0..9`. -/
def columnsGate (F : Type) [CommRing F] : Gate F :=
  { gname := "columns"
    polys :=
      (List.range 9).flatMap fun i =>
        [ Expr.mul (Expr.sel Selec.onlyFirst)
            (Expr.sub
              ((List.range 9).foldl (fun expr j => Expr.mul expr (Expr.adv i j))
                (Expr.const (1 : F)))
              (Expr.const (362880 : F))),
          Expr.mul (Expr.sel Selec.onlyFirst)
            (Expr.sub
              ((List.range 9).foldl (fun expr j => Expr.add expr (Expr.adv i j))
                (Expr.const (0 : F)))
              (Expr.const (45 : F))) ] }

/-- The `"3x3 squares"` gate: for `i` and `j` in `0..3`, pushes
`only_first_enabled * (product - 362880)` and `only_first_enabled * (sum - 45)`,
with nested folds over `k, l` in `0..3` reading `advice[i*3+k]@Rotation(j*3+l)`. -/
def squaresGate (F : Type) [CommRing F] : Gate F :=
  { gname := "3x3 squares"
    polys :=
      (List.range 3).flatMap fun i =>
        (List.range 3).flatMap fun j =>
          [ Expr.mul (Expr.sel Selec.onlyFirst)
              (Expr.sub
                ((List.range 3).foldl
                  (fun eOuter k =>
                    Expr.mul eOuter
                      ((List.range 3).foldl
                        (fun eInner l => Expr.mul eInner (Expr.adv (i * 3 + k) (j * 3 + l)))
                        (Expr.const (1 : F))))
                  (Expr.const (1 : F)))
                (Expr.const (362880 : F))),
            Expr.mul (Expr.sel Selec.onlyFirst)
              (Expr.sub
                ((List.range 3).foldl
                  (fun eOuter k =>
                    Expr.add eOuter
                      ((List.range 3).foldl
                        (fun eInner l => Expr.add eInner (Expr.adv (i * 3 + k) (j * 3 + l)))
                        (Expr.const (0 : F))))
                  (Expr.const (0 : F)))
                (Expr.const (45 : F))) ] }

/-- The result of `SudokuChip::configure`: the set of advice columns with
equality enabled, the set of instance columns with equality enabled (both
given by their creation indices 0..8; the source enables equality on all of
them), and the gates in registration order. -/
structure SudokuConfig (F : Type) where
  adviceEq : List ℕ
  instanceEq : List ℕ
  gates : List (Gate F)

/-- `SudokuChip::configure`: 9 advice columns and 9 instance columns, all
equality-enabled, and the five registered gates in source order. -/
def configure (F : Type) [CommRing F] : SudokuConfig F :=
  { adviceEq := List.range 9
    instanceEq := List.range 9
    gates := [testGate F, rangeCheckGate F, rowsGate F, columnsGate F, squaresGate F] }

/-- The selector values produced by `assign`: `only_first_enabled` is on
exactly at row 0, `always_enabled` exactly at rows 0..8. -/
def selValues (F : Type) [CommRing F] : Selec → ℕ → F
  | Selec.onlyFirst, r => if r = 0 then 1 else 0
  | Selec.always, r => if r < 9 then 1 else 0

/-- A gate is satisfied when every one of its constraint polynomials
evaluates to zero at every row of the assigned region (rows 0..8).  Outside
rows 0..8 both selectors are off, so every constraint there is of the form
`0 * e` and vanishes identically; restricting to rows 0..8 therefore loses
nothing (`eval_zero_of_row_ge` below makes this precise). -/
def gateSat {F : Type} [CommRing F] (g : Gate F) (tbl : ℕ → ℕ → F)
    (sv : Selec → ℕ → F) : Prop :=
  ∀ e ∈ g.polys, ∀ row < 9, Expr.eval tbl sv row e = 0

/-- All gates of a list are satisfied. -/
def systemSat {F : Type} [CommRing F] (gs : List (Gate F)) (tbl : ℕ → ℕ → F)
    (sv : Selec → ℕ → F) : Prop :=
  ∀ g ∈ gs, gateSat g tbl sv

instance {F : Type} [CommRing F] [DecidableEq F] (g : Gate F) (tbl : ℕ → ℕ → F)
    (sv : Selec → ℕ → F) : Decidable (gateSat g tbl sv) := by
  unfold gateSat; infer_instance

instance {F : Type} [CommRing F] [DecidableEq F] (gs : List (Gate F)) (tbl : ℕ → ℕ → F)
    (sv : Selec → ℕ → F) : Decidable (systemSat gs tbl sv) := by
  unfold systemSat; infer_instance

/-! ## The `assign` region -/

/-- One copy constraint recorded by `region.assign_advice_from_instance`
(instance column, row inside the instance column, advice column, row inside
the advice column). -/
structure CopyC where
  instCol : ℕ
  instRow : ℕ
  advCol : ℕ
  advRow : ℕ
deriving DecidableEq, Repr

/-- One direct advice assignment recorded by `region.assign_advice`
(advice column, row inside the advice column, value). -/
structure CellAssign (F : Type) where
  col : ℕ
  row : ℕ
  val : F
deriving DecidableEq, Repr

/-- Everything `assign` does to the region: selector enablings
(`only_first_enabled.enable(row)` rows, `always_enabled.enable(row)` rows),
copy constraints of the first loop, direct assignments of the second loop. -/
structure AssignResult (F : Type) where
  onlyFirstRows : List ℕ
  alwaysRows : List ℕ
  copies : List CopyC
  cells : List (CellAssign F)
deriving DecidableEq, Repr

instance {F : Type} : Inhabited (AssignResult F) := ⟨⟨[], [], [], []⟩⟩

/-- `solution[r][c]` with Rust `Vec` indexing: `none` models the
out-of-bounds panic. -/
def readCell {F : Type} (solution : List (List F)) (r c : ℕ) : Option F :=
  (solution.get? r).bind fun rowVals => rowVals.get? c

/-- The `(row, col)` pairs visited by the two nested `for row in 0..9
{ for col in 0..9 { ... } }` loops, in loop order. -/
def cellIndices : List (ℕ × ℕ) :=
  (List.range 9).flatMap fun row => (List.range 9).map fun col => (row, col)

/-- Body of the first loop at `(row, col)`: read `solution[row][col]`
(outer `none` = index panic); if it is zero emit the copy constraint of
`assign_advice_from_instance(instance[row], col, advice[row], col)`,
otherwise `continue` (inner `none`). -/
def publicStep {F : Type} [Zero F] [DecidableEq F] (solution : List (List F))
    (p : ℕ × ℕ) : Option (Option CopyC) :=
  (readCell solution p.1 p.2).map fun v =>
    if v = 0 then some ⟨p.1, p.2, p.1, p.2⟩ else none

/-- Body of the second loop at `(row, col)`: read `solution[row][col]`;
if it is zero `continue`, otherwise emit the direct assignment of
`assign_advice(advice[row], col, solution[row][col])`. -/
def solutionStep {F : Type} [Zero F] [DecidableEq F] (solution : List (List F))
    (p : ℕ × ℕ) : Option (Option (CellAssign F)) :=
  (readCell solution p.1 p.2).map fun v =>
    if v = 0 then none else some ⟨p.1, p.2, v⟩

/-- Run a loop body over a list of indices, collecting the emitted items;
`none` from the body (an index panic) aborts the whole run. -/
def collectPass {α β : Type} (f : α → Option (Option β)) : List α → Option (List β)
  | [] => some []
  | a :: as =>
    match f a with
    | none => none
    | some b? =>
      match collectPass f as with
      | none => none
      | some bs =>
        some (match b? with
          | some b => b :: bs
          | none => bs)

/-- `SudokuChip::assign`: enable `only_first_enabled` at row 0 and
`always_enabled` at rows 0..8, then run the public-cell loop and the
solution-cell loop.  Any out-of-bounds read of `solution` yields `none`
(the Rust code would panic there). -/
def assign {F : Type} [Zero F] [DecidableEq F] (solution : List (List F)) :
    Option (AssignResult F) :=
  match collectPass (publicStep solution) cellIndices with
  | none => none
  | some copies =>
    match collectPass (solutionStep solution) cellIndices with
    | none => none
    | some cells =>
      some { onlyFirstRows := [0]
             alwaysRows := List.range 9
             copies := copies
             cells := cells }

/-- Selector values determined by the rows `assign` enabled. -/
def selOf {F : Type} [CommRing F] (res : AssignResult F) : Selec → ℕ → F
  | Selec.onlyFirst, r => if r ∈ res.onlyFirstRows then 1 else 0
  | Selec.always, r => if r ∈ res.alwaysRows then 1 else 0

/-- The backend's (MockProver's) acceptance condition for one assigned
instance: the advice table agrees with every direct assignment, every copy
constraint holds between the instance values and the advice table, and all
configured gates are satisfied under the enabled selectors. -/
def verifies {F : Type} [CommRing F] (res : AssignResult F)
    (instVal : ℕ → ℕ → F) (tbl : ℕ → ℕ → F) : Prop :=
  (∀ ca ∈ res.cells, tbl ca.col ca.row = ca.val) ∧
  (∀ cp ∈ res.copies, tbl cp.advCol cp.advRow = instVal cp.instCol cp.instRow) ∧
  systemSat (configure F).gates tbl (selOf res)

instance {F : Type} [CommRing F] [DecidableEq F] (res : AssignResult F)
    (instVal : ℕ → ℕ → F) (tbl : ℕ → ℕ → F) : Decidable (verifies res instVal tbl) := by
  unfold verifies; infer_instance

/-! ## Concrete data from `tests::sudoku_example`

The test's `public_grid` (clues, 0 at blanks) and `solution` (the private
control grid, 0 at clue positions), and the combined full solution each
advice cell ends up holding.  Concrete evaluations happen over `ZMod 11`,
a prime field in which 1..9 are distinct nonzero residues. -/

/-- `public_grid` of the source's test. -/
def pubGrid : List (List ℕ) :=
  [ [0, 0, 1, 0, 0, 4, 0, 9, 0],
    [4, 0, 0, 0, 0, 0, 1, 0, 7],
    [0, 8, 0, 7, 0, 0, 0, 0, 4],
    [9, 0, 0, 0, 1, 0, 8, 0, 0],
    [0, 0, 0, 8, 0, 7, 0, 0, 0],
    [0, 0, 8, 0, 6, 0, 0, 0, 1],
    [8, 0, 0, 0, 0, 5, 0, 1, 0],
    [6, 0, 5, 0, 0, 0, 0, 0, 9],
    [0, 1, 0, 9, 0, 0, 4, 0, 0] ]

/-- `solution` of the source's test (the private grid `S`). -/
def solGrid : List (List ℕ) :=
  [ [5, 7, 0, 6, 2, 0, 3, 0, 8],
    [0, 2, 6, 3, 8, 9, 0, 5, 0],
    [3, 0, 9, 0, 5, 1, 2, 6, 0],
    [0, 5, 7, 4, 0, 2, 0, 3, 6],
    [1, 6, 3, 0, 9, 0, 5, 4, 2],
    [2, 4, 0, 5, 0, 3, 9, 7, 0],
    [0, 9, 4, 2, 7, 0, 6, 0, 3],
    [0, 3, 0, 1, 4, 8, 7, 2, 0],
    [7, 0, 2, 0, 3, 6, 0, 8, 5] ]

/-- The cell-wise combination (clue where `S` is 0, else `S`): the full
valid solution the advice table holds after `assign`. -/
def fullGrid : List (List ℕ) :=
  [ [5, 7, 1, 6, 2, 4, 3, 9, 8],
    [4, 2, 6, 3, 8, 9, 1, 5, 7],
    [3, 8, 9, 7, 5, 1, 2, 6, 4],
    [9, 5, 7, 4, 1, 2, 8, 3, 6],
    [1, 6, 3, 8, 9, 7, 5, 4, 2],
    [2, 4, 8, 5, 6, 3, 9, 7, 1],
    [8, 9, 4, 2, 7, 5, 6, 1, 3],
    [6, 3, 5, 1, 4, 8, 7, 2, 9],
    [7, 1, 2, 9, 3, 6, 4, 8, 5] ]

/-- `fullGrid` with Sudoku rows 0 and 1 exchanged: still a valid Sudoku
solution (the two rows lie in the same band), but its cell (0,0) is 4. -/
def swappedGrid : List (List ℕ) :=
  [ [4, 2, 6, 3, 8, 9, 1, 5, 7],
    [5, 7, 1, 6, 2, 4, 3, 9, 8],
    [3, 8, 9, 7, 5, 1, 2, 6, 4],
    [9, 5, 7, 4, 1, 2, 8, 3, 6],
    [1, 6, 3, 8, 9, 7, 5, 4, 2],
    [2, 4, 8, 5, 6, 3, 9, 7, 1],
    [8, 9, 4, 2, 7, 5, 6, 1, 3],
    [6, 3, 5, 1, 4, 8, 7, 2, 9],
    [7, 1, 2, 9, 3, 6, 4, 8, 5] ]

instance : Fact (Nat.Prime 11) := ⟨by norm_num⟩

/-- View a `ℕ` grid as a total function into `ZMod 11` (0 outside). -/
def gridFn (g : List (List ℕ)) : ℕ → ℕ → ZMod 11 :=
  fun r c => (((g.get? r).bind fun rw => rw.get? c).getD 0 : ℕ)

/-- The private grid `S` of the test, as field elements. -/
def solGridF : List (List (ZMod 11)) :=
  solGrid.map (List.map (fun n : ℕ => (n : ZMod 11)))

/-- The advice table after `assign` on the test data: advice column `c`,
row `p` holds `fullGrid[c][p]` (column = Sudoku row, position = Sudoku
column). -/
def tblFull : ℕ → ℕ → ZMod 11 := gridFn fullGrid

/-- The instance values of the test: instance column `r`, row `c` holds
`public_grid[r][c]`. -/
def instFull : ℕ → ℕ → ZMod 11 := gridFn pubGrid

/-- The `AssignResult` produced by `assign` on the test's private grid. -/
def resFull : AssignResult (ZMod 11) := (assign solGridF).getD default

/-- The value of cell `(r, c)` of the grid actually read by `assign`
(0 where the read would be out of bounds). -/
def gridOf {F : Type} [Zero F] (S : List (List F)) : ℕ → ℕ → F :=
  fun r c => (readCell S r c).getD 0

/-- The table layout implemented by `assign`: advice column `c` at position
(row offset) `p` holds the digit at Sudoku row `c`, Sudoku column `p`
(`advice[row]` receives `solution[row][col]` or the clue at `(row, col)` at
offset `col`).  Viewing a Sudoku grid `g` (indexed row, column) as a table
is therefore the identity on index pairs. -/
def tableOf {F : Type} (g : ℕ → ℕ → F) : ℕ → ℕ → F := g

/-- The 9 blocks swept by the `"3x3 squares"` gate are pairwise disjoint
regions of (table column, position) space: cells of distinct blocks
`(i, j) ≠ (i', j')` are distinct. -/
def blockCellsDisjoint : Prop :=
  ∀ i < 3, ∀ j < 3, ∀ i' < 3, ∀ j' < 3, ∀ k < 3, ∀ l < 3, ∀ k' < 3, ∀ l' < 3,
    (i, j) ≠ (i', j') → (i * 3 + k, j * 3 + l) ≠ (i' * 3 + k', j' * 3 + l')

/-- Instance values after the test's mutation `public_input[0][0] += 1`,
leaving the witness unchanged. -/
def instMut : ℕ → ℕ → ZMod 11 :=
  fun r c => if r = 0 ∧ c = 0 then instFull 0 0 + 1 else instFull r c

/-- Bump one instance cell `(r, c)` by `d`, leaving the rest unchanged. -/
def bumpAt {F : Type} [Add F] (instVal : ℕ → ℕ → F) (r c : ℕ) (d : F) : ℕ → ℕ → F :=
  fun r' c' => if r' = r ∧ c' = c then instVal r c + d else instVal r' c'

/-- A 10x10 all-ones grid: not 9x9. -/
def bigGrid : List (List (ZMod 11)) := List.replicate 10 (List.replicate 10 1)

/-- How `assign` must have handled grid cell `(r, c)`: the private value `v`
was read; if `v = 0` the advice cell `(advice[r], c)` is copy-constrained to
the instance cell `(instance[r], c)` and receives no direct assignment; if
`v ≠ 0` the advice cell is assigned `v` directly and carries no copy
constraint; in each case the cell is assigned exactly once. -/
def cluePartitionAt {F : Type} [Zero F] [DecidableEq F] (S : List (List F))
    (res : AssignResult F) (r c : ℕ) : Prop :=
  ∃ v, readCell S r c = some v ∧
    (v = 0 → CopyC.mk r c r c ∈ res.copies ∧
      ∀ ca ∈ res.cells, ¬(ca.col = r ∧ ca.row = c)) ∧
    (v ≠ 0 → CellAssign.mk r c v ∈ res.cells ∧
      ∀ cp ∈ res.copies, ¬(cp.advCol = r ∧ cp.advRow = c)) ∧
    res.copies.countP (fun cp => decide (cp.advCol = r ∧ cp.advRow = c)) +
      res.cells.countP (fun ca => decide (ca.col = r ∧ ca.row = c)) = 1

/-! ## Evaluation lemmas -/

theorem eval_foldl_mul {F : Type} [CommRing F] (tbl : ℕ → ℕ → F) (sv : Selec → ℕ → F)
    (row : ℕ) (f : ℕ → Expr F) (l : List ℕ) (e0 : Expr F) :
    Expr.eval tbl sv row (l.foldl (fun expr i => Expr.mul expr (f i)) e0) =
      Expr.eval tbl sv row e0 * (l.map fun i => Expr.eval tbl sv row (f i)).prod := by
  induction l generalizing e0 with
  | nil => simp
  | cons a as ih =>
    rw [List.foldl_cons, ih, List.map_cons, List.prod_cons]
    simp [Expr.eval, mul_assoc]

theorem eval_foldl_add {F : Type} [CommRing F] (tbl : ℕ → ℕ → F) (sv : Selec → ℕ → F)
    (row : ℕ) (f : ℕ → Expr F) (l : List ℕ) (e0 : Expr F) :
    Expr.eval tbl sv row (l.foldl (fun expr i => Expr.add expr (f i)) e0) =
      Expr.eval tbl sv row e0 + (l.map fun i => Expr.eval tbl sv row (f i)).sum := by
  induction l generalizing e0 with
  | nil => simp
  | cons a as ih =>
    rw [List.foldl_cons, ih, List.map_cons, List.sum_cons]
    simp [Expr.eval, add_assoc]

theorem prod_range_nine {F : Type} [CommRing F] (f : ℕ → F) :
    (∏ c ∈ Finset.range 9, f c) =
      f 0 * f 1 * f 2 * f 3 * f 4 * f 5 * f 6 * f 7 * f 8 := by
  simp [Finset.prod_range_succ]

theorem sum_range_nine {F : Type} [CommRing F] (f : ℕ → F) :
    (∑ c ∈ Finset.range 9, f c) =
      f 0 + f 1 + f 2 + f 3 + f 4 + f 5 + f 6 + f 7 + f 8 := by
  simp [Finset.sum_range_succ]

theorem prod_range_three {F : Type} [CommRing F] (f : ℕ → F) :
    (∏ k ∈ Finset.range 3, f k) = f 0 * f 1 * f 2 := by
  simp [Finset.prod_range_succ]

theorem sum_range_three {F : Type} [CommRing F] (f : ℕ → F) :
    (∑ k ∈ Finset.range 3, f k) = f 0 + f 1 + f 2 := by
  simp [Finset.sum_range_succ]

theorem onlyFirst_gated {F : Type} [CommRing F] (X : ℕ → F) :
    (∀ row < 9, selValues F Selec.onlyFirst row * X row = 0) ↔ X 0 = 0 := by
  constructor
  · intro h
    have h0 := h 0 (by norm_num)
    simpa [selValues] using h0
  · intro h row _
    rcases eq_or_ne row 0 with rfl | hr
    · simpa [selValues] using h
    · simp [selValues, hr]

theorem always_gated {F : Type} [CommRing F] (X : ℕ → F) :
    (∀ row < 9, selValues F Selec.always row * X row = 0) ↔ ∀ row < 9, X row = 0 := by
  constructor
  · intro h row hrow
    have hr := h row hrow
    simpa [selValues, hrow] using hr
  · intro h row hrow
    rw [h row hrow, mul_zero]

theorem forall_mem_flatMap_range {α : Type} (gs : ℕ → List α) (n : ℕ) (Q : α → Prop) :
    (∀ e ∈ (List.range n).flatMap gs, Q e) ↔ ∀ i < n, ∀ e ∈ gs i, Q e := by
  constructor
  · intro h i hi e he
    exact h e (List.mem_flatMap.mpr ⟨i, List.mem_range.mpr hi, he⟩)
  · intro h e he
    obtain ⟨i, hi, hei⟩ := List.mem_flatMap.mp he
    exact h i (List.mem_range.mp hi) e hei

theorem forall_mem_map_range {α : Type} (f : ℕ → α) (n : ℕ) (Q : α → Prop) :
    (∀ e ∈ (List.range n).map f, Q e) ↔ ∀ j < n, Q (f j) := by
  constructor
  · intro h j hj
    exact h (f j) (List.mem_map.mpr ⟨j, List.mem_range.mpr hj, rfl⟩)
  · intro h e he
    obtain ⟨j, hj, rfl⟩ := List.mem_map.mp he
    exact h j (List.mem_range.mp hj)

/-! ## What each gate enforces -/

theorem testGate_sat_iff {F : Type} [CommRing F] (tbl : ℕ → ℕ → F) :
    gateSat (testGate F) tbl (selValues F) ↔ tbl 0 0 = 5 ∧ tbl 0 1 = 7 := by
  unfold gateSat testGate
  simp only [List.mem_cons, List.not_mem_nil, or_false, forall_eq_or_imp, forall_eq]
  simp only [Expr.eval, onlyFirst_gated]
  constructor
  · rintro ⟨h1, h2⟩
    constructor
    · have := sub_eq_zero.mp h1
      simpa using this.symm
    · have := sub_eq_zero.mp h2
      simpa using this.symm
  · rintro ⟨h1, h2⟩
    constructor
    · simpa using sub_eq_zero.mpr (h1.symm : (5 : F) = tbl 0 0)
    · simpa using sub_eq_zero.mpr (h2.symm : (7 : F) = tbl 0 1)

theorem rowsGate_sat_iff {F : Type} [CommRing F] (tbl : ℕ → ℕ → F) :
    gateSat (rowsGate F) tbl (selValues F) ↔
      ∀ p < 9, (∏ c ∈ Finset.range 9, tbl c p) = 362880 ∧
        (∑ c ∈ Finset.range 9, tbl c p) = 45 := by
  unfold gateSat rowsGate
  simp only [List.mem_cons, List.not_mem_nil, or_false, forall_eq_or_imp, forall_eq]
  simp only [Expr.eval, one_mul, zero_add, add_zero, always_gated, sub_eq_zero,
    prod_range_nine, sum_range_nine]
  constructor
  · rintro ⟨h1, h2⟩ p hp
    exact ⟨h1 p hp, h2 p hp⟩
  · intro h
    exact ⟨fun p hp => (h p hp).1, fun p hp => (h p hp).2⟩

theorem columnsGate_sat_iff {F : Type} [CommRing F] (tbl : ℕ → ℕ → F) :
    gateSat (columnsGate F) tbl (selValues F) ↔
      ∀ i < 9, (∏ j ∈ Finset.range 9, tbl i j) = 362880 ∧
        (∑ j ∈ Finset.range 9, tbl i j) = 45 := by
  unfold gateSat columnsGate
  rw [forall_mem_flatMap_range]
  apply forall_congr'
  intro i
  apply imp_congr_right
  intro _
  simp only [List.mem_cons, List.not_mem_nil, or_false, forall_eq_or_imp, forall_eq]
  simp only [Expr.eval, one_mul, zero_add, add_zero, onlyFirst_gated, sub_eq_zero,
    prod_range_nine, sum_range_nine]

theorem mem_range'_one {m : ℕ} : m ∈ List.range' 1 9 ↔ 1 ≤ m ∧ m < 10 := by
  rw [List.mem_range']
  constructor
  · rintro ⟨i, hi, rfl⟩
    omega
  · rintro ⟨h1, h2⟩
    exact ⟨m - 1, by omega, by omega⟩

theorem rangeProd_eq_zero_iff {F : Type} [Field F] (v : F) :
    ((List.range' 1 9).map fun k : ℕ => (k : F) - v).prod = 0 ↔
      ∃ k : ℕ, 1 ≤ k ∧ k ≤ 9 ∧ v = (k : F) := by
  rw [List.prod_eq_zero_iff]
  constructor
  · intro h0
    obtain ⟨k, hk, hk0⟩ := List.mem_map.mp h0
    obtain ⟨h1, h2⟩ := mem_range'_one.mp hk
    exact ⟨k, h1, by omega, (sub_eq_zero.mp hk0).symm⟩
  · rintro ⟨k, h1, h2, rfl⟩
    exact List.mem_map.mpr ⟨k, mem_range'_one.mpr ⟨h1, by omega⟩, sub_eq_zero.mpr rfl⟩

theorem rangeCheckGate_sat_iff {F : Type} [Field F] (tbl : ℕ → ℕ → F) :
    gateSat (rangeCheckGate F) tbl (selValues F) ↔
      ∀ i < 9, ∀ j < 9, ∃ k : ℕ, 1 ≤ k ∧ k ≤ 9 ∧ tbl i j = (k : F) := by
  unfold gateSat rangeCheckGate
  rw [forall_mem_flatMap_range]
  apply forall_congr'
  intro i
  apply imp_congr_right
  intro _
  rw [forall_mem_map_range]
  apply forall_congr'
  intro j
  apply imp_congr_right
  intro _
  have hmul : ∀ e : Expr F, ∀ row : ℕ,
      Expr.eval tbl (selValues F) row (Expr.mul (Expr.sel Selec.onlyFirst) e) =
        selValues F Selec.onlyFirst row * Expr.eval tbl (selValues F) row e := by
    intro e row
    rfl
  simp only [hmul, onlyFirst_gated]
  unfold rangeCheckExpr
  rw [show (10 - 1 : ℕ) = 9 from rfl, eval_foldl_mul]
  simp only [Expr.eval, one_mul, zero_add]
  exact rangeProd_eq_zero_iff (tbl i j)

theorem squaresGate_sat_iff {F : Type} [CommRing F] (tbl : ℕ → ℕ → F) :
    gateSat (squaresGate F) tbl (selValues F) ↔
      ∀ i < 3, ∀ j < 3,
        (∏ k ∈ Finset.range 3, ∏ l ∈ Finset.range 3, tbl (i * 3 + k) (j * 3 + l)) = 362880 ∧
        (∑ k ∈ Finset.range 3, ∑ l ∈ Finset.range 3, tbl (i * 3 + k) (j * 3 + l)) = 45 := by
  unfold gateSat squaresGate
  rw [forall_mem_flatMap_range]
  apply forall_congr'
  intro i
  apply imp_congr_right
  intro _
  rw [forall_mem_flatMap_range]
  apply forall_congr'
  intro j
  apply imp_congr_right
  intro _
  simp only [List.mem_cons, List.not_mem_nil, or_false, forall_eq_or_imp, forall_eq]
  simp only [Expr.eval, one_mul, zero_add, add_zero, onlyFirst_gated, sub_eq_zero,
    prod_range_three, sum_range_three]

/-! ## What `assign` does -/

theorem mem_cellIndices {p : ℕ × ℕ} : p ∈ cellIndices ↔ p.1 < 9 ∧ p.2 < 9 := by
  obtain ⟨r, c⟩ := p
  unfold cellIndices
  simp only [List.mem_flatMap, List.mem_map, List.mem_range, Prod.mk.injEq]
  constructor
  · rintro ⟨row, hrow, col, hcol, rfl, rfl⟩
    exact ⟨hrow, hcol⟩
  · rintro ⟨hr, hc⟩
    exact ⟨r, hr, c, hc, rfl, rfl⟩

theorem collectPass_of_forall {α β : Type} {f : α → Option (Option β)}
    {g : α → Option β} {l : List α} (h : ∀ a ∈ l, f a = some (g a)) :
    collectPass f l = some (l.filterMap g) := by
  induction l with
  | nil => rfl
  | cons a as ih =>
    rw [collectPass, h a (List.mem_cons_self a as),
      ih fun x hx => h x (List.mem_cons_of_mem a hx)]
    cases hg : g a <;> simp [List.filterMap_cons, hg]

theorem collectPass_some_isSome {α β : Type} {f : α → Option (Option β)}
    {l : List α} {bs : List β} (h : collectPass f l = some bs) :
    ∀ a ∈ l, (f a).isSome := by
  induction l generalizing bs with
  | nil => intro a ha; cases ha
  | cons a as ih =>
    intro x hx
    rw [collectPass] at h
    cases hf : f a with
    | none => rw [hf] at h; cases h
    | some b? =>
      rw [hf] at h
      cases hrest : collectPass f as with
      | none => rw [hrest] at h; cases h
      | some bs' =>
        rcases List.mem_cons.mp hx with rfl | hx'
        · rw [hf]; rfl
        · exact ih hrest x hx'

theorem readCell_eq_gridOf {F : Type} [Zero F] {S : List (List F)} {r c : ℕ}
    (h : (readCell S r c).isSome) : readCell S r c = some (gridOf S r c) := by
  unfold gridOf
  cases hr : readCell S r c with
  | none => rw [hr] at h; cases h
  | some v => simp [hr]

/-- The copy constraint emitted by the first loop for a zero cell of the
private grid. -/
def copyEmit {F : Type} [Zero F] [DecidableEq F] (S : List (List F))
    (p : ℕ × ℕ) : Option CopyC :=
  if gridOf S p.1 p.2 = 0 then some ⟨p.1, p.2, p.1, p.2⟩ else none

/-- The direct assignment emitted by the second loop for a nonzero cell of
the private grid. -/
def cellEmit {F : Type} [Zero F] [DecidableEq F] (S : List (List F))
    (p : ℕ × ℕ) : Option (CellAssign F) :=
  if gridOf S p.1 p.2 = 0 then none else some ⟨p.1, p.2, gridOf S p.1 p.2⟩

theorem assign_eq_explicit {F : Type} [Zero F] [DecidableEq F]
    {S : List (List F)} (h : ∀ r < 9, ∀ c < 9, (readCell S r c).isSome) :
    assign S = some
      { onlyFirstRows := [0]
        alwaysRows := List.range 9
        copies := cellIndices.filterMap (copyEmit S)
        cells := cellIndices.filterMap (cellEmit S) } := by
  have hread : ∀ p ∈ cellIndices, readCell S p.1 p.2 = some (gridOf S p.1 p.2) := by
    intro p hp
    obtain ⟨h1, h2⟩ := mem_cellIndices.mp hp
    exact readCell_eq_gridOf (h p.1 h1 p.2 h2)
  have h1 : collectPass (publicStep S) cellIndices =
      some (cellIndices.filterMap (copyEmit S)) := by
    apply collectPass_of_forall
    intro p hp
    rw [publicStep, hread p hp, Option.map_some']
    rfl
  have h2 : collectPass (solutionStep S) cellIndices =
      some (cellIndices.filterMap (cellEmit S)) := by
    apply collectPass_of_forall
    intro p hp
    rw [solutionStep, hread p hp, Option.map_some']
    rfl
  rw [assign, h1, h2]

theorem assign_some_read {F : Type} [Zero F] [DecidableEq F]
    {S : List (List F)} {res : AssignResult F} (h : assign S = some res) :
    ∀ r < 9, ∀ c < 9, (readCell S r c).isSome := by
  rw [assign] at h
  cases h1 : collectPass (publicStep S) cellIndices with
  | none => rw [h1] at h; cases h
  | some copies =>
    intro r hr c hc
    have hmem := collectPass_some_isSome h1 (r, c) (mem_cellIndices.mpr ⟨hr, hc⟩)
    rw [publicStep] at hmem
    cases hrc : readCell S r c with
    | none => rw [hrc] at hmem; cases hmem
    | some v => rfl

theorem assign_some_eq {F : Type} [Zero F] [DecidableEq F]
    {S : List (List F)} {res : AssignResult F} (h : assign S = some res) :
    res =
      { onlyFirstRows := [0]
        alwaysRows := List.range 9
        copies := cellIndices.filterMap (copyEmit S)
        cells := cellIndices.filterMap (cellEmit S) } := by
  have h2 := assign_eq_explicit (assign_some_read h)
  rw [h] at h2
  exact Option.some_inj.mp h2

theorem countP_filterMap {α β : Type} (f : α → Option β) (q : β → Bool) (l : List α) :
    (l.filterMap f).countP q = l.countP fun a => (f a).elim false q := by
  induction l with
  | nil => rfl
  | cons a as ih =>
    cases hf : f a <;>
      simp [List.filterMap_cons, hf, List.countP_cons, ih, Option.elim]

theorem countP_add_exclusive {α : Type} (p q : α → Bool) (l : List α)
    (h : ∀ a ∈ l, ¬(p a ∧ q a)) :
    l.countP p + l.countP q = l.countP fun a => p a || q a := by
  induction l with
  | nil => rfl
  | cons a as ih =>
    have ha := h a (List.mem_cons_self a as)
    have ih' := ih fun x hx => h x (List.mem_cons_of_mem a hx)
    simp only [List.countP_cons]
    rcases hp : p a with _ | _ <;> rcases hq : q a with _ | _ <;>
      simp_all <;> omega

theorem cellIndices_countP_eq_one :
    ∀ r < 9, ∀ c < 9,
      cellIndices.countP (fun p => decide (p.1 = r ∧ p.2 = c)) = 1 := by
  decide

/-- Core characterization of `assign`: every grid cell `(r, c)` with
`r, c < 9` is handled exactly once, by the branch selected by the private
grid's zero pattern. -/
theorem assign_partition {F : Type} [Zero F] [DecidableEq F]
    {S : List (List F)} {res : AssignResult F} (h : assign S = some res) :
    ∀ r < 9, ∀ c < 9, cluePartitionAt S res r c := by
  intro r hr c hc
  have hres := assign_some_eq h
  have hread := readCell_eq_gridOf (assign_some_read h r hr c hc)
  refine ⟨gridOf S r c, hread, ?_, ?_, ?_⟩
  · intro hv0
    constructor
    · rw [hres]
      exact List.mem_filterMap.mpr
        ⟨(r, c), mem_cellIndices.mpr ⟨hr, hc⟩, by simp [copyEmit, hv0]⟩
    · intro ca hca hrc
      rw [hres] at hca
      obtain ⟨p, _, hemit⟩ := List.mem_filterMap.mp hca
      by_cases hgp : gridOf S p.1 p.2 = 0
      · simp [cellEmit, hgp] at hemit
      · rw [cellEmit, if_neg hgp] at hemit
        obtain rfl := Option.some_inj.mp hemit
        have h1 : p.1 = r := hrc.1
        have h2 : p.2 = c := hrc.2
        rw [h1, h2] at hgp
        exact hgp hv0
  · intro hv0
    constructor
    · rw [hres]
      exact List.mem_filterMap.mpr
        ⟨(r, c), mem_cellIndices.mpr ⟨hr, hc⟩, by simp [cellEmit, hv0]⟩
    · intro cp hcp hrc
      rw [hres] at hcp
      obtain ⟨p, _, hemit⟩ := List.mem_filterMap.mp hcp
      by_cases hgp : gridOf S p.1 p.2 = 0
      · rw [copyEmit, if_pos hgp] at hemit
        obtain rfl := Option.some_inj.mp hemit
        have h1 : p.1 = r := hrc.1
        have h2 : p.2 = c := hrc.2
        rw [h1, h2] at hgp
        exact hv0 hgp
      · simp [copyEmit, hgp] at hemit
  · rw [hres]
    simp only
    rw [countP_filterMap, countP_filterMap]
    have e1 : cellIndices.countP
          (fun p => (copyEmit S p).elim false fun cp => decide (cp.advCol = r ∧ cp.advRow = c)) =
        cellIndices.countP
          (fun p =>
            if gridOf S p.1 p.2 = 0 then decide (p.1 = r ∧ p.2 = c) else false) := by
      apply List.countP_congr
      intro p _
      by_cases hgp : gridOf S p.1 p.2 = 0 <;> simp [copyEmit, hgp, Option.elim]
    have e2 : cellIndices.countP
          (fun p => (cellEmit S p).elim false fun ca => decide (ca.col = r ∧ ca.row = c)) =
        cellIndices.countP
          (fun p =>
            if gridOf S p.1 p.2 = 0 then false else decide (p.1 = r ∧ p.2 = c)) := by
      apply List.countP_congr
      intro p _
      by_cases hgp : gridOf S p.1 p.2 = 0 <;> simp [cellEmit, hgp, Option.elim]
    rw [e1, e2, countP_add_exclusive]
    · have e3 : cellIndices.countP
            (fun p =>
              (if gridOf S p.1 p.2 = 0 then decide (p.1 = r ∧ p.2 = c) else false) ||
                (if gridOf S p.1 p.2 = 0 then false else decide (p.1 = r ∧ p.2 = c))) =
          cellIndices.countP (fun p => decide (p.1 = r ∧ p.2 = c)) := by
        apply List.countP_congr
        intro p _
        by_cases hgp : gridOf S p.1 p.2 = 0 <;> simp [hgp]
      rw [e3]
      exact cellIndices_countP_eq_one r hr c hc
    · intro p _
      by_cases hgp : gridOf S p.1 p.2 = 0 <;> simp [hgp]

/-! ## Concrete facts used by witnesses -/

theorem assign_solGridF : assign solGridF = some resFull := by decide

/-! ## Claims -/

/-- C1 (counterexample): the table holding the fully valid Sudoku solution
`swappedGrid` satisfies all four named identities — range check,
cross-section ("rows"), row ("columns") and box ("3x3 squares") — yet
violates the compiled gate set of `configure`, because a fifth registered
gate ("test gate") pins cell (0,0) to 5.  The compiled gate set is
therefore not "exactly four polynomial identities and no other constraint
on any table cell". -/
theorem gateSet_has_fifth_constraint :
    systemSat [rangeCheckGate (ZMod 11), rowsGate (ZMod 11), columnsGate (ZMod 11),
        squaresGate (ZMod 11)] (gridFn swappedGrid) (selValues (ZMod 11)) ∧
      ¬ systemSat (configure (ZMod 11)).gates (gridFn swappedGrid) (selValues (ZMod 11)) := by
  decide

/-- C1 (amended): the compiled gate set of `configure` consists of the four
polynomial identities plus the leftover "test gate": it is satisfied
exactly when the four identities hold and cells (0,0) and (0,1) of advice
column 0 hold 5 and 7. -/
theorem configure_gateSet_iff (F : Type) [CommRing F] (tbl : ℕ → ℕ → F) :
    systemSat (configure F).gates tbl (selValues F) ↔
      (tbl 0 0 = 5 ∧ tbl 0 1 = 7) ∧
        systemSat [rangeCheckGate F, rowsGate F, columnsGate F, squaresGate F] tbl
          (selValues F) := by
  show systemSat [testGate F, rangeCheckGate F, rowsGate F, columnsGate F, squaresGate F]
      tbl (selValues F) ↔ _
  unfold systemSat
  simp only [List.mem_cons, List.not_mem_nil, or_false, forall_eq_or_imp, forall_eq]
  rw [testGate_sat_iff]

/-- C2: `assign` handles every cell (r, c) of the 9x9 grids by exactly one
of two mutually exclusive and exhaustive cases chosen by the private grid's
zero pattern: a zero entry yields a copy constraint between instance column
r row c and advice column r row c, a nonzero entry yields a direct
assignment of that value with no link to the instance; each cell is
assigned exactly once. -/
theorem assign_two_case_partition (F : Type) [Zero F] [DecidableEq F]
    (S : List (List F)) (res : AssignResult F) (h : assign S = some res) :
    ∀ r < 9, ∀ c < 9, cluePartitionAt S res r c :=
  assign_partition h

/-- Witness for C2 at the repository test's private grid, cell (0, 2). -/
theorem assign_two_case_partition_w :
    assign solGridF = some resFull ∧ cluePartitionAt solGridF resFull 0 2 :=
  ⟨assign_solGridF,
    assign_two_case_partition (ZMod 11) solGridF resFull assign_solGridF
      0 (by norm_num) 2 (by norm_num)⟩

/-- C3: under the layout where advice column c position p holds the digit
at Sudoku row c, Sudoku column p, the cross-section identity (the gate the
source names "rows") validates Sudoku columns, and the row identity (the
gate the source names "columns") validates Sudoku rows — the reverse of the
source's gate names. -/
theorem gate_axis_reversal (F : Type) [CommRing F] (g : ℕ → ℕ → F) :
    (gateSat (rowsGate F) (tableOf g) (selValues F) ↔
      ∀ sCol < 9, (∏ sRow ∈ Finset.range 9, g sRow sCol) = 362880 ∧
        (∑ sRow ∈ Finset.range 9, g sRow sCol) = 45) ∧
    (gateSat (columnsGate F) (tableOf g) (selValues F) ↔
      ∀ sRow < 9, (∏ sCol ∈ Finset.range 9, g sRow sCol) = 362880 ∧
        (∑ sCol ∈ Finset.range 9, g sRow sCol) = 45) :=
  ⟨rowsGate_sat_iff g, columnsGate_sat_iff g⟩

/-- C4: the range check, gated by `only_first_enabled`, is satisfied
exactly when every one of the 81 table cells v makes
(1 - v)(2 - v)...(9 - v) vanish, i.e. when v is the field representation of
one of 1..9 (the hypotheses record that 1..9 are distinct nonzero residues,
as the claim assumes). -/
theorem range_check_digits (F : Type) [Field F]
    (_hdist : ∀ l : ℕ, l < 10 → ∀ k : ℕ, k < l → 1 ≤ k → (k : F) ≠ (l : F))
    (_hnz : ∀ k : ℕ, k < 10 → 1 ≤ k → (k : F) ≠ 0)
    (tbl : ℕ → ℕ → F) :
    gateSat (rangeCheckGate F) tbl (selValues F) ↔
      ∀ i < 9, ∀ j < 9, ∃ k : ℕ, 1 ≤ k ∧ k ≤ 9 ∧ tbl i j = (k : F) :=
  rangeCheckGate_sat_iff tbl

set_option maxHeartbeats 2000000 in
/-- Witness for C4 over `ZMod 11`, where 1..9 are distinct nonzero
residues. -/
theorem range_check_digits_w :
    (∀ l : ℕ, l < 10 → ∀ k : ℕ, k < l → 1 ≤ k → (k : ZMod 11) ≠ (l : ZMod 11)) ∧
      (∀ k : ℕ, k < 10 → 1 ≤ k → (k : ZMod 11) ≠ 0) ∧
      (gateSat (rangeCheckGate (ZMod 11)) tblFull (selValues (ZMod 11)) ↔
        ∀ i < 9, ∀ j < 9, ∃ k : ℕ, 1 ≤ k ∧ k ≤ 9 ∧ tblFull i j = (k : ZMod 11)) :=
  ⟨by decide, by decide, range_check_digits (ZMod 11) (by decide) (by decide) tblFull⟩

/-- C5: `assign` enables `only_first_enabled` exactly at position 0 and
`always_enabled` at all 9 positions, and under those selector values the
cross-section ("rows") gate is satisfied exactly when at every one of the 9
positions the 9 cells across the table columns multiply to 362880 and sum
to 45. -/
theorem cross_section_every_position (F : Type) [CommRing F] [DecidableEq F] :
    (∀ (S : List (List F)) (res : AssignResult F), assign S = some res →
        selOf res = selValues F) ∧
    (∀ tbl : ℕ → ℕ → F, gateSat (rowsGate F) tbl (selValues F) ↔
        ∀ p < 9, (∏ c ∈ Finset.range 9, tbl c p) = 362880 ∧
          (∑ c ∈ Finset.range 9, tbl c p) = 45) := by
  constructor
  · intro S res h
    rw [assign_some_eq h]
    funext s r
    cases s <;> simp [selOf, selValues, List.mem_range]
  · exact rowsGate_sat_iff

/-- Witness for C5: the selectors enabled by `assign` on the test data. -/
theorem cross_section_every_position_w :
    selOf resFull = selValues (ZMod 11) :=
  (cross_section_every_position (ZMod 11)).1 solGridF resFull assign_solGridF

/-- C6: the row identity (the source's "columns" gate, gated by
`only_first_enabled`, hence enforced once globally) is satisfied exactly
when, for each of the 9 table columns, the 9 digits along the position axis
multiply to 362880 and sum to 45. -/
theorem row_identity_per_column (F : Type) [CommRing F] (tbl : ℕ → ℕ → F) :
    gateSat (columnsGate F) tbl (selValues F) ↔
      ∀ i < 9, (∏ j ∈ Finset.range 9, tbl i j) = 362880 ∧
        (∑ j ∈ Finset.range 9, tbl i j) = 45 :=
  columnsGate_sat_iff tbl

/-- C7: the box identity (the source's "3x3 squares" gate, gated by
`only_first_enabled`) is satisfied exactly when each of the 9 blocks
{3i..3i+2} x {3j..3j+2} of (table column, position) space has its 9 cells
multiply to 362880 and sum to 45; those 9 blocks are pairwise disjoint. -/
theorem box_identity_blocks (F : Type) [CommRing F] (tbl : ℕ → ℕ → F) :
    (gateSat (squaresGate F) tbl (selValues F) ↔
      ∀ i < 3, ∀ j < 3,
        (∏ k ∈ Finset.range 3, ∏ l ∈ Finset.range 3,
          tbl (i * 3 + k) (j * 3 + l)) = 362880 ∧
        (∑ k ∈ Finset.range 3, ∑ l ∈ Finset.range 3,
          tbl (i * 3 + k) (j * 3 + l)) = 45) ∧
    blockCellsDisjoint := by
  refine ⟨squaresGate_sat_iff tbl, ?_⟩
  intro i hi j hj i' hi' j' hj' k hk l hl k' hk' l' hl' hne heq
  apply hne
  rw [Prod.mk.injEq] at heq ⊢
  constructor <;> omega

/-- C8 (counterexample): a 10x10 grid is not 9x9, yet `assign` does not
fail — it silently uses the 9x9 prefix. -/
theorem assign_accepts_oversized_grid :
    bigGrid.length = 10 ∧ (assign bigGrid).isSome = true := by
  decide

/-- C8 (amended): `assign` performs no up-front shape validation: it reads
exactly the cells (r, c) with r, c < 9 of the private grid, so it succeeds
iff the 9x9 prefix is fully present.  Oversized grids are accepted with the
excess ignored; an undersized grid makes the (panicking) indexing fail
during assignment rather than being rejected up front. -/
theorem assign_succeeds_iff_prefix (F : Type) [Zero F] [DecidableEq F]
    (S : List (List F)) :
    (assign S).isSome = true ↔ ∀ r < 9, ∀ c < 9, (readCell S r c).isSome = true := by
  constructor
  · intro h
    obtain ⟨res, hres⟩ := Option.isSome_iff_exists.mp h
    exact assign_some_read hres
  · intro h
    rw [assign_eq_explicit h]
    rfl

/-- C9 (counterexample): on the repository test's own instance, bumping the
public-input cell (0,0) — whose private-grid entry is 5, nonzero, so no
copy constraint links it to the table — leaves every constraint satisfied:
the backend still accepts the unchanged witness, so mutating an arbitrary
single public-input cell does not cause rejection. -/
theorem mutated_public_cell_still_accepted :
    instMut 0 0 ≠ instFull 0 0 ∧
      verifies resFull instFull tblFull ∧
      verifies resFull instMut tblFull := by
  decide

/-- C9 (amended): mutating a clue cell — one whose private-grid entry is 0,
hence copy-constrained to the table — by a nonzero delta always breaks the
copy constraint: verification rejects. -/
theorem clue_cell_mutation_rejected (F : Type) [CommRing F] [DecidableEq F]
    (S : List (List F)) (res : AssignResult F) (instVal tbl : ℕ → ℕ → F)
    (r c : ℕ) (d : F) (h : assign S = some res) (hr : r < 9) (hc : c < 9)
    (h0 : readCell S r c = some 0) (hd : d ≠ 0)
    (hver : verifies res instVal tbl) :
    ¬ verifies res (bumpAt instVal r c d) tbl := by
  intro hver'
  obtain ⟨v, hv, hz, _, _⟩ := assign_partition h r hr c hc
  have hv0 : v = 0 := by
    rw [hv] at h0
    exact Option.some_inj.mp h0
  obtain ⟨hmem, -⟩ := hz hv0
  have h1 : tbl r c = instVal r c := hver.2.1 _ hmem
  have h2 : tbl r c = bumpAt instVal r c d r c := hver'.2.1 _ hmem
  rw [bumpAt] at h2
  simp only [and_self, if_pos rfl, true_and] at h2
  rw [h1] at h2
  exact hd (self_eq_add_right.mp h2)

/-- Witness for C9 (amended): bumping clue cell (0, 2) of the test's public
input by 1 makes verification reject. -/
theorem clue_cell_mutation_rejected_w :
    ¬ verifies resFull (bumpAt instFull 0 2 1) tblFull :=
  clue_cell_mutation_rejected (ZMod 11) solGridF resFull instFull tblFull 0 2 1
    assign_solGridF (by norm_num) (by norm_num) (by decide) (by decide) (by decide)

/-- C10: `configure` enables equality on every one of the 9 advice and 9
instance columns, and every copy constraint created by `assign` joins
instance column r row c to advice column r row c, with both columns
equality-enabled — an enforced copy constraint, not a mere value copy. -/
theorem equality_enabled_for_copies (F : Type) [CommRing F] [DecidableEq F] :
    (∀ i < 9, i ∈ (configure F).adviceEq ∧ i ∈ (configure F).instanceEq) ∧
    (∀ (S : List (List F)) (res : AssignResult F), assign S = some res →
      ∀ cp ∈ res.copies,
        cp.instCol = cp.advCol ∧ cp.instRow = cp.advRow ∧
          cp.advCol ∈ (configure F).adviceEq ∧
          cp.instCol ∈ (configure F).instanceEq) := by
  constructor
  · intro i hi
    exact ⟨List.mem_range.mpr hi, List.mem_range.mpr hi⟩
  · intro S res h cp hcp
    rw [assign_some_eq h] at hcp
    obtain ⟨p, hp, hemit⟩ := List.mem_filterMap.mp hcp
    obtain ⟨h1, h2⟩ := mem_cellIndices.mp hp
    by_cases hgp : gridOf S p.1 p.2 = 0
    · rw [copyEmit, if_pos hgp] at hemit
      obtain rfl := Option.some_inj.mp hemit
      exact ⟨rfl, rfl, List.mem_range.mpr h1, List.mem_range.mpr h1⟩
    · simp [copyEmit, hgp] at hemit

/-- Witness for C10 at the repository test's data: column 0 is
equality-enabled on both sides, and the copy constraint of clue cell (0, 2)
joins equality-enabled columns. -/
theorem equality_enabled_for_copies_w :
    (0 ∈ (configure (ZMod 11)).adviceEq ∧ 0 ∈ (configure (ZMod 11)).instanceEq) ∧
      ((CopyC.mk 0 2 0 2).instCol = (CopyC.mk 0 2 0 2).advCol ∧
        (CopyC.mk 0 2 0 2).instRow = (CopyC.mk 0 2 0 2).advRow ∧
        (CopyC.mk 0 2 0 2).advCol ∈ (configure (ZMod 11)).adviceEq ∧
        (CopyC.mk 0 2 0 2).instCol ∈ (configure (ZMod 11)).instanceEq) :=
  ⟨(equality_enabled_for_copies (ZMod 11)).1 0 (by norm_num),
    (equality_enabled_for_copies (ZMod 11)).2 solGridF resFull assign_solGridF
      (CopyC.mk 0 2 0 2) (by decide)⟩

end SudokuH2
